import Mathlib

/-!
# Verification of the AdX hyperparameter-sweep harness

Shallow embedding of `optimize_hyperpara.py` and `my_agent.py`
(repository `AdX-Agent`).

Conventions of the embedding:
* Python floats are idealised as exact rationals (`ℚ`); bit-level float
  rounding is not modelled, but the documented exceptional behaviour is:
  `OverflowError` from `math.exp` and from `**`, `ZeroDivisionError` from
  `/`, `TypeError` from subscripting `None`, `ValueError` from `float(...)`
  on a malformed token, and the banker's rounding of `round(x, 2)`.
* Python ints are `ℤ`.
* `math.exp` is transcendental-valued, so the agent code is parameterised
  by a function `E : ℚ → Option ℚ` standing for the float exponential
  (`none` models `OverflowError`).  Theorems assume of `E` only properties
  the real `math.exp` has (positivity, monotonicity, `exp 0 = 1`, totality
  at and below 0, overflow only at the top end).
* The `while` loop of `frange` is embedded with explicit fuel
  (`frangeAux`); result `none` means the loop has not terminated within
  the given fuel, so `∀ fuel, frangeAux fuel … = none` states divergence.
-/

namespace AdX

/-- Python exception kinds relevant to this code base. -/
inductive PyErr where
  | overflow
  | zeroDiv
  | typeError
  | valueError
deriving DecidableEq, Repr

/-! ## Grid generator: `frange` (optimize_hyperpara.py lines 23-30) -/

/-- The floating-point drift tolerance used by `frange`: `1e-9`. -/
def eps : ℚ := 1 / 1000000000

/-- Round to the nearest integer, ties to even — the documented semantics of
Python's built-in `round` on exactly representable values. -/
def roundHalfEven (q : ℚ) : ℤ :=
  if q - ⌊q⌋ = 1 / 2 then (if (2 : ℤ) ∣ ⌊q⌋ then ⌊q⌋ else ⌊q⌋ + 1) else round q

/-- Python `round(x, 2)`: round to two decimal places. -/
def round2 (q : ℚ) : ℚ := ((roundHalfEven (q * 100) : ℤ) : ℚ) / 100

/-- Fuel-indexed embedding of the `while` loop of `frange`:

    result = []
    current = start
    while current <= stop + 1e-9:
        result.append(round(current, 2))
        current += step
    return result

`none` means the loop did not finish within `fuel` iterations. -/
def frangeAux : ℕ → ℚ → ℚ → ℚ → Option (List ℚ)
  | 0, _, _, _ => none
  | fuel + 1, current, stop, step =>
      if current ≤ stop + eps then
        (frangeAux fuel (current + step) stop step).map (fun l => round2 current :: l)
      else
        some []

/-- Divergence of `frange(start, stop, step)`: the loop runs forever. -/
def frangeDiverges (start stop step : ℚ) : Prop :=
  ∀ fuel : ℕ, frangeAux fuel start stop step = none

/-- A rational exactly representable with two decimal places. -/
def twoDec (q : ℚ) : Prop := ∃ n : ℤ, q = (n : ℤ) / 100

/-! ## Pacing strategy
(`TunableSigmoidAgent.get_ad_bids`, optimize_hyperpara.py lines 33-81, and
`MyNDaysNCampaignsAgent.get_ad_bids`, my_agent.py lines 40-104) -/

/-- The largest finite IEEE-754 double, `(2 - 2^-52) · 2^1023`, exactly. -/
def maxFloat : ℚ := 2 ^ 1024 - 2 ^ 971

/-- The tunable knobs of `TunableSigmoidAgent.__init__`. -/
structure ParameterVector where
  p_peak_multiplier : ℚ
  p_steepness : ℚ
  p_base_lift : ℚ
deriving DecidableEq, Repr

/-- Per-campaign snapshot read by `get_ad_bids`: `camp.reach`, `camp.budget`
(`None` possible), `get_cumulative_reach(camp)` (`done`),
`get_cumulative_cost(camp)` (`spent`), `camp.uid`, `camp.target_segment`
(opaque id). -/
structure CampaignInfo where
  reach : ℤ
  budget : Option ℚ
  done : ℤ
  spent : ℚ
  uid : ℕ
  target_segment : ℕ
deriving DecidableEq, Repr

/-- A bid `Bid(bidder, auction_item, bid_per_item, bid_limit)` (the bidder field is
the agent itself and carries no data relevant here). -/
structure Bid where
  bid_per_item : ℚ
  bid_limit : ℚ
  auction_item : ℕ
deriving DecidableEq, Repr

/-- A bundle `BidBundle(campaign_id, limit, bid_entries={bid})`; the singleton entry
set is kept as one `Bid`. -/
structure BidBundle where
  campaign_id : ℕ
  limit : ℚ
  bid : Bid
deriving DecidableEq, Repr

/-- Python float division: raises `ZeroDivisionError` on a zero divisor. -/
def pyDiv (a b : ℚ) : Except PyErr ℚ :=
  if b = 0 then .error .zeroDiv else .ok (a / b)

/-- Python `x ** 2` on floats: raises `OverflowError` when the result
exceeds the largest finite double. -/
def pyPowTwo (a : ℚ) : Except PyErr ℚ :=
  if maxFloat < a ^ 2 then .error .overflow else .ok (a ^ 2)

/-- Application of the `math.exp` model: `none` is `OverflowError`. -/
def pyExp (E : ℚ → Option ℚ) (x : ℚ) : Except PyErr ℚ :=
  match E x with
  | some y => .ok y
  | none => .error .overflow

/-- Python `camp.budget or 0`. -/
def budgetOrZero (c : CampaignInfo) : ℚ := (c.budget).getD 0

/-- The quantity `remaining = max(reach - done, 0)`. -/
def remainingOf (c : CampaignInfo) : ℤ := max (c.reach - c.done) 0

/-- The quantity `remaining_budget = max((camp.budget or 0) - spent, 0)`. -/
def remainingBudgetOf (c : CampaignInfo) : ℚ := max (budgetOrZero c - c.spent) 0

/-- The argument `x = (progress - 0.5) * steepness`. -/
def xOf (steepness progress : ℚ) : ℚ := (progress - 1 / 2) * steepness

/-- The body of the `try` block:
`deriv = math.exp(-x) / ((1 + math.exp(-x)) ** 2)`, with every float fault
propagating.  Evaluation order follows Python: left operand first. -/
def derivRaw (E : ℚ → Option ℚ) (x : ℚ) : Except PyErr ℚ :=
  match pyExp E (-x) with
  | .error e => .error e
  | .ok e1 =>
    match pyExp E (-x) with
    | .error e => .error e
    | .ok e2 =>
      match pyPowTwo (1 + e2) with
      | .error e => .error e
      | .ok sq => pyDiv e1 sq

/-- The statement `try: deriv = … except OverflowError: deriv = 0.0`
(optimize_hyperpara.py lines 64-67): only `OverflowError` is caught. -/
def derivTry (E : ℚ → Option ℚ) (x : ℚ) : Except PyErr ℚ :=
  match derivRaw E x with
  | .error .overflow => .ok 0
  | r => r

/-- The value `urgency_multiplier = p_base_lift + (deriv * p_peak_multiplier)`
for the tunable agent, at a given progress fraction. -/
def urgencyOf (E : ℚ → Option ℚ) (p : ParameterVector) (progress : ℚ) :
    Except PyErr ℚ :=
  match derivTry E (xOf p.p_steepness progress) with
  | .error e => .error e
  | .ok d => .ok (p.p_base_lift + d * p.p_peak_multiplier)

/-- The value `urgency = 0.2 + (math.exp(-x) / ((1 + math.exp(-x)) ** 2)) * 4.0` with
`x = (progress - 0.5) * 10` (my_agent.py lines 81-82): no `try`, all float
faults propagate. -/
def myUrgency (E : ℚ → Option ℚ) (progress : ℚ) : Except PyErr ℚ :=
  match derivRaw E (xOf 10 progress) with
  | .error e => .error e
  | .ok d => .ok (1 / 5 + d * 4)

/-- The bundle built by both agents once a bid is decided:
`bid_per_item = max(base_bid * urgency, 0.01)`;
`daily_budget = max(1.0, remaining_budget * 0.95)`. -/
def mkBundle (c : CampaignInfo) (base_bid urgency : ℚ) : BidBundle :=
  { campaign_id := c.uid
    limit := max 1 (remainingBudgetOf c * (19 / 20))
    bid :=
      { bid_per_item := max (base_bid * urgency) (1 / 100)
        bid_limit := max 1 (remainingBudgetOf c * (19 / 20))
        auction_item := c.target_segment } }

/-- One loop iteration of `TunableSigmoidAgent.get_ad_bids` for campaign `c`:
`ok none` models `continue`, `ok (some b)` a bundle added to the set, and
`error` an uncaught exception. -/
def tunStep (E : ℚ → Option ℚ) (p : ParameterVector) (c : CampaignInfo) :
    Except PyErr (Option BidBundle) :=
  if remainingOf c ≤ 0 ∨ remainingBudgetOf c ≤ 0 then .ok none
  else
    match pyDiv (remainingBudgetOf c) ((remainingOf c : ℤ) : ℚ) with
    | .error e => .error e
    | .ok base_bid =>
      match pyDiv ((c.done : ℤ) : ℚ) ((c.reach : ℤ) : ℚ) with
      | .error e => .error e
      | .ok progress =>
        match urgencyOf E p progress with
        | .error e => .error e
        | .ok urgency => .ok (some (mkBundle c base_bid urgency))

/-- One loop iteration of `MyNDaysNCampaignsAgent.get_ad_bids` (my_agent.py):
identical structure but fixed urgency constants and no `try/except`. -/
def myStep (E : ℚ → Option ℚ) (c : CampaignInfo) :
    Except PyErr (Option BidBundle) :=
  if remainingOf c ≤ 0 ∨ remainingBudgetOf c ≤ 0 then .ok none
  else
    match pyDiv (remainingBudgetOf c) ((remainingOf c : ℤ) : ℚ) with
    | .error e => .error e
    | .ok base_bid =>
      match pyDiv ((c.done : ℤ) : ℚ) ((c.reach : ℤ) : ℚ) with
      | .error e => .error e
      | .ok progress =>
        match myUrgency E progress with
        | .error e => .error e
        | .ok urgency => .ok (some (mkBundle c base_bid urgency))

/-- The full `get_ad_bids` loop of the tunable agent over the active
campaigns, in iteration order. -/
def tunGetAdBids (E : ℚ → Option ℚ) (p : ParameterVector) :
    List CampaignInfo → Except PyErr (List BidBundle)
  | [] => .ok []
  | c :: cs =>
    match tunStep E p c with
    | .error e => .error e
    | .ok ob =>
      match tunGetAdBids E p cs with
      | .error e => .error e
      | .ok rest => .ok (match ob with | none => rest | some b => b :: rest)

/-! ## Sweep controller and result logger
(`run_optimization`, optimize_hyperpara.py lines 92-171).

This first model abstracts one evaluation as an oracle
`eval : ℕ → Option ℚ` indexed by the enumeration index: `none` models an
exception raised inside the `try` block around `run_simulation` (the
`except Exception: … continue` path), `some v` the parsed `avg_profit`
(which is the sentinel `-99999` on an extraction miss).  This
abstraction cannot represent the one evaluation fault the loop does not
catch — a `ValueError` raised by `parse_profit_from_log` at line 155,
outside the `try` — so it is exact only on runs where every captured
report parses; the model `runSweepAux` further below makes that error
path explicit, and `runSweepAux_clean` proves the two agree whenever no
parse error occurs.  `best_score = -float('inf')` is modelled by
`Option ℚ` with `none` for `-inf`. -/

/-- One CSV row: `[i + 1, pm, steep, base, avg_profit, SIMS_PER_RUN]`. -/
structure SweepRow where
  run_id : ℕ
  peak_mult : ℚ
  steepness : ℚ
  base_lift : ℚ
  avg_profit : ℚ
  num_sims : ℕ
deriving DecidableEq, Repr

def SIMS_PER_RUN : ℕ := 15

/-- The controller's mutable state: the rows appended so far, the best
score (`none` = `-float('inf')`) and its parameters (`none` = `None`). -/
structure SweepState where
  rows : List SweepRow
  best_score : Option ℚ
  best_params : Option (ℚ × ℚ × ℚ)
deriving DecidableEq, Repr

/-- The test `avg_profit > best_score` with `best_score` possibly `-inf`. -/
def beatsBest (best : Option ℚ) (profit : ℚ) : Bool :=
  match best with
  | none => true
  | some b => decide (b < profit)

/-- The row written for combination index `i` (0-based; the CSV stores
`i + 1`). -/
def rowOf (i : ℕ) (combo : ℚ × ℚ × ℚ) (profit : ℚ) : SweepRow :=
  ⟨i + 1, combo.1, combo.2.1, combo.2.2, profit, SIMS_PER_RUN⟩

/-- One iteration of the sweep loop (optimize_hyperpara.py lines 129-165):
on a crash, `continue` — no row, no update; otherwise append exactly one
row, then update the best tracker on strict improvement. -/
def sweepStep (eval : ℕ → Option ℚ) (st : SweepState) (ic : ℕ × (ℚ × ℚ × ℚ)) :
    SweepState :=
  match eval ic.1 with
  | none => st
  | some profit =>
    if beatsBest st.best_score profit then
      ⟨st.rows ++ [rowOf ic.1 ic.2 profit], some profit, some ic.2⟩
    else
      ⟨st.rows ++ [rowOf ic.1 ic.2 profit], st.best_score, st.best_params⟩

/-- The whole sweep over the enumerated grid. -/
def runSweep (eval : ℕ → Option ℚ) (combos : List (ℚ × ℚ × ℚ)) : SweepState :=
  (combos.enum).foldl (sweepStep eval) ⟨[], none, none⟩

/-- The final summary block (lines 167-171): it formats `best_score`
unconditionally and subscripts `best_params`, which raises `TypeError`
when `best_params` is still `None`.  There is no other branch. -/
def finalSummary (st : SweepState) : Except PyErr (Option ℚ × (ℚ × ℚ × ℚ)) :=
  match st.best_params with
  | none => .error .typeError
  | some p => .ok (st.best_score, p)

/-- The grid `itertools.product(peak_mults, steepnesses, base_lifts)` in
lexicographic order. -/
def gridCombos (a b c : List ℚ) : List (ℚ × ℚ × ℚ) :=
  a.flatMap (fun x => b.flatMap (fun y => c.map (fun z => (x, y, z))))

/-- The body of `run_optimization` up to the abstraction of one evaluation: the three
`frange` calls happen first (before the store is created and before any
evaluation); if any of them fails to terminate nothing further happens. -/
def sweepPipeline (fuel : ℕ) (eval : ℕ → Option ℚ)
    (r1 r2 r3 : ℚ × ℚ × ℚ) : Option SweepState :=
  match frangeAux fuel r1.1 r1.2.1 r1.2.2,
        frangeAux fuel r2.1 r2.2.1 r2.2.2,
        frangeAux fuel r3.1 r3.2.1 r3.2.2 with
  | some pms, some sts, some bls => some (runSweep eval (gridCombos pms sts bls))
  | _, _, _ => none

/-- The function `run_optimization` with its hard-coded ranges
`frange(3.0, 6.0, 1.0)`, `frange(8.0, 12.0, 2.0)`, `frange(0.1, 0.3, 0.1)`. -/
def runOptimization (fuel : ℕ) (eval : ℕ → Option ℚ) : Option SweepState :=
  sweepPipeline fuel eval (3, 6, 1) (8, 12, 2) (1 / 10, 3 / 10, 1 / 10)

/-! ## Fitness extractor
(`parse_profit_from_log`, optimize_hyperpara.py lines 84-89).

The compiled pattern is `rf"###\s+{re.escape(agent_name)}\s+#\s+([0-9.-]+)"`
and `pattern.search` takes the leftmost match.  The pattern is embedded
directly: literal `###`, one-or-more whitespace (greedy, longest
alternative first, with backtracking), the agent name taken literally
(that is what `re.escape` guarantees), whitespace, literal `#`,
whitespace, then a maximal non-empty run of characters from `[0-9.-]`
(maximal because the capture group ends the pattern).  Texts are lists of
characters; `\s` is modelled by ASCII whitespace. -/

/-- ASCII `\s`. -/
def isPySpace (c : Char) : Bool :=
  c = ' ' || c = '\t' || c = '\n' || c = '\r' || c = '\x0b' || c = '\x0c'

/-- The character class `[0-9.-]`. -/
def isNumCls (c : Char) : Bool := c.isDigit || c = '.' || c = '-'

/-- Match a literal sequence, returning the remaining text. -/
def dropLit : List Char → List Char → Option (List Char)
  | [], l => some l
  | _ :: _, [] => none
  | p :: ps, c :: cs => if p = c then dropLit ps cs else none

/-- The pattern `\s+` followed by continuation `k`: consume at least one whitespace
character, preferring the longest run, backtracking to shorter runs if the
continuation fails — exactly the greedy semantics of the `re` module. -/
def spacesPlus (k : List Char → Option (List Char)) : List Char → Option (List Char)
  | [] => none
  | c :: cs =>
    if isPySpace c then
      match spacesPlus k cs with
      | some r => some r
      | none => k cs
    else none

/-- The trailing capture group `([0-9.-]+)`: a maximal non-empty run. -/
def tailCapture (l : List Char) : Option (List Char) :=
  let run := l.takeWhile isNumCls
  if run.isEmpty then none else some run

/-- Attempt to match the whole pattern at the current position, returning
the captured token. -/
def matchAt (name l : List Char) : Option (List Char) :=
  (dropLit ['#', '#', '#'] l).bind
    (spacesPlus fun l1 =>
      (dropLit name l1).bind
        (spacesPlus fun l2 =>
          (dropLit ['#'] l2).bind (spacesPlus tailCapture)))

/-- The call `pattern.search`: leftmost position whose match attempt succeeds. -/
def searchFrom (name : List Char) : List Char → Option (List Char)
  | [] => matchAt name []
  | l@(_ :: cs) =>
    match matchAt name l with
    | some cap => some cap
    | none => searchFrom name cs

/-- Value of a decimal digit. -/
def digitVal (c : Char) : ℕ := c.toNat - 48

/-- Decimal value of a digit run. -/
def digitsToNat (l : List Char) : ℕ := l.foldl (fun acc c => acc * 10 + digitVal c) 0

/-- Python `float(s)` on an unsigned token drawn from `[0-9.]`:
`digits`, `digits.digits`, `.digits` or `digits.` — anything else (such as
`"."` or `"1.2.3"`) raises `ValueError` (here: `none`).  The value is kept
as a mantissa together with the count of decimal places. -/
def pyFloatCore (s : List Char) : Option (ℤ × ℕ) :=
  let intPart := s.takeWhile Char.isDigit
  let rest := s.dropWhile Char.isDigit
  match rest with
  | [] => if intPart.isEmpty then none else some (((digitsToNat intPart : ℕ) : ℤ), 0)
  | '.' :: frac =>
    if frac.all Char.isDigit && (!intPart.isEmpty || !frac.isEmpty) then
      some (((digitsToNat (intPart ++ frac) : ℕ) : ℤ), frac.length)
    else none
  | _ => none

/-- Python `float(s)` on a token drawn from `[0-9.-]`: one optional leading
minus sign. -/
def pyFloatOfToken (s : List Char) : Option (ℤ × ℕ) :=
  match s with
  | '-' :: rest => (pyFloatCore rest).map (fun p => (-p.1, p.2))
  | _ => pyFloatCore s

/-- The rational denoted by a parsed float: `mantissa / 10 ^ places`. -/
def floatValue (p : ℤ × ℕ) : ℚ := (p.1 : ℚ) / 10 ^ p.2

/-- The extractor `parse_profit_from_log(output_str, agent_name)`: the leftmost match's
captured token converted by `float(...)` (whose `ValueError` on a
malformed token propagates — the call sits outside any `try`), and the
sentinel `-99999.0` when there is no match. -/
def parse_profit_from_log (output_str agent_name : List Char) : Except PyErr ℚ :=
  match searchFrom agent_name output_str with
  | some cap =>
    match pyFloatOfToken cap with
    | some p => .ok (floatValue p)
    | none => .error .valueError
  | none => .ok (-99999)

/-! ## The sweep loop with the extractor inlined

The oracle model above (`sweepStep`, `runSweep`) abstracts one evaluation
as `Option ℚ` and is exact only on runs where `parse_profit_from_log`
does not raise.  The model below is faithful to the full loop body of
`run_optimization` (lines 142-165): the simulator stage is abstracted as
`sim : ℕ → Option (List Char)` — `none` for an exception inside the
`try` around `run_simulation` (the caught `continue` path), `some log`
for the captured stdout — and the extractor is then applied by the loop
itself, exactly as at line 155, *outside* the `try`: a `ValueError` from
a malformed matched token propagates and aborts the whole sweep.  The
returned pair is the final result-store state (rows already appended
stay appended — the CSV is durable) together with the uncaught
exception, if any. -/

/-- The `Option ℚ` view of one combination's evaluation when no parse
error occurs: `none` for a simulator crash, `some v` for a parsed
profit. -/
def evalOf (sim : ℕ → Option (List Char)) (name : List Char) (i : ℕ) :
    Option ℚ :=
  match sim i with
  | none => none
  | some log =>
    match parse_profit_from_log log name with
    | .ok v => some v
    | .error _ => none

/-- The sweep loop over the enumerated combinations, with the extractor
call and its uncaught `ValueError` modelled explicitly. -/
def runSweepAux (sim : ℕ → Option (List Char)) (name : List Char) :
    List (ℕ × (ℚ × ℚ × ℚ)) → SweepState → SweepState × Option PyErr
  | [], st => (st, none)
  | ic :: rest, st =>
    match sim ic.1 with
    | none => runSweepAux sim name rest st
    | some log =>
      match parse_profit_from_log log name with
      | .error e => (st, some e)
      | .ok profit =>
        runSweepAux sim name rest
          (if beatsBest st.best_score profit then
            ⟨st.rows ++ [rowOf ic.1 ic.2 profit], some profit, some ic.2⟩
          else
            ⟨st.rows ++ [rowOf ic.1 ic.2 profit], st.best_score, st.best_params⟩)

/-- The whole sweep in the faithful model. -/
def runSweepFull (sim : ℕ → Option (List Char)) (name : List Char)
    (combos : List (ℚ × ℚ × ℚ)) : SweepState × Option PyErr :=
  runSweepAux sim name combos.enum ⟨[], none, none⟩

/-! ## Concrete instances used by witnesses and counterexamples -/

/-- The float `math.exp(0.0) = 1.0` everywhere: a legitimate stand-in for
`math.exp` whenever the program only ever evaluates it at `0`. -/
def expOne : ℚ → Option ℚ := fun _ => some 1

/-- The shortest-round-trip decimal value of the float `math.exp(5)`,
`148.4131591025766`. -/
def expFloatAtFive : ℚ := 1484131591025766 / 10000000000000

/-- A stand-in for `math.exp` that agrees with the float exponential at the
two arguments a run with `steepness = 10` and `progress ∈ {0, 0.5}`
evaluates: `0 ↦ 1.0` (exact) and `5 ↦ 148.4131591025766`. -/
def expStub : ℚ → Option ℚ :=
  fun x => if x = 0 then some 1 else some expFloatAtFive

/-- A stand-in for `math.exp` that overflows at argument `5` (as the real
float exponential does at huge arguments) and is `1.0` elsewhere; with
`steepness = 10⁶`-scale knobs the program only evaluates it where this
matters. -/
def expOverflowAtFive : ℚ → Option ℚ :=
  fun x => if x = 5 then none else some 1

/-- A campaign at 50% progress: reach 2, budget 100, 1 impression done,
nothing spent. -/
def cHalf : CampaignInfo := ⟨2, some 100, 1, 0, 7, 3⟩

/-- A campaign at 0% progress: reach 2, budget 100, nothing done or
spent. -/
def cZero : CampaignInfo := ⟨2, some 100, 0, 0, 7, 3⟩

/-- The two-line report of the specification's extractor example. -/
def exReport : List Char :=
  (r"### Bot A # 12.50").toList ++ '\n' :: (r"### Bot B # -3.0").toList

def botA : List Char := (r"Bot A").toList

def nonexistentName : List Char := (r"Nonexistent").toList

/-- The agent name with a regex metacharacter. -/
def botDotX : List Char := (r"Bot.X").toList

/-- A report that must not be matched by the name `Bot.X`. -/
def reportYX : List Char := (r"### BotYX # 5.0").toList

/-- A report whose captured token `"."` is not a well-formed float. -/
def reportBad : List Char := (r"### Bot A # .").toList

/-- A report with two matches for the same agent name. -/
def reportTwo : List Char :=
  (r"### Bot A # 1").toList ++ '\n' :: (r"### Bot A # 2").toList

/-- A report whose captured token parses: profit 5. -/
def goodLog : List Char := (r"### Bot A # 5").toList

/-- A simulator stand-in that crashes on combination 0 and produces a
well-formed report afterwards. -/
def simCrashGood : ℕ → Option (List Char) :=
  fun i => if i = 0 then none else some goodLog

/-- A simulator stand-in that produces a well-formed report on
combination 0 and a malformed-token report afterwards. -/
def simGoodBad : ℕ → Option (List Char) :=
  fun i => if i = 0 then some goodLog else some reportBad

/-! ## Supporting lemmas -/

lemma roundHalfEven_intCast (n : ℤ) : roundHalfEven ((n : ℤ) : ℚ) = n := by
  unfold roundHalfEven
  simp only [Int.floor_intCast, sub_self]
  rw [if_neg (by norm_num)]
  exact round_intCast n

lemma round2_twoDec {q : ℚ} (h : twoDec q) : round2 q = q := by
  obtain ⟨n, rfl⟩ := h
  unfold round2
  have h100 : ((n : ℤ) : ℚ) / 100 * 100 = ((n : ℤ) : ℚ) := by
    field_simp
  rw [h100, roundHalfEven_intCast]

lemma twoDec_add {a b : ℚ} (ha : twoDec a) (hb : twoDec b) : twoDec (a + b) := by
  obtain ⟨n, rfl⟩ := ha
  obtain ⟨m, rfl⟩ := hb
  exact ⟨n + m, by push_cast; ring⟩

lemma twoDec_nsmul {a : ℚ} (ha : twoDec a) (k : ℕ) : twoDec ((k : ℚ) * a) := by
  obtain ⟨n, rfl⟩ := ha
  exact ⟨(k : ℤ) * n, by push_cast; ring⟩

lemma twoDec_le_of_le_add_eps {a b : ℚ} (ha : twoDec a) (hb : twoDec b)
    (h : a ≤ b + eps) : a ≤ b := by
  obtain ⟨n, rfl⟩ := ha
  obtain ⟨m, rfl⟩ := hb
  have hnm : (n : ℚ) ≤ (m : ℚ) + 1 / 10000000 := by
    rw [eps] at h
    nlinarith [h]
  have : n ≤ m := by
    by_contra hcon
    push_neg at hcon
    have : (m : ℚ) + 1 ≤ (n : ℚ) := by exact_mod_cast hcon
    linarith
  have : (n : ℚ) ≤ (m : ℚ) := by exact_mod_cast this
  linarith

/-- Main structural description of a terminating `frange` run: the `i`-th
emitted value is `round(current + i*step, 2)`, every iterate satisfies the
loop condition, and the first iterate past the list fails it. -/
lemma frangeAux_spec :
    ∀ (fuel : ℕ) (current stop step : ℚ) (l : List ℚ),
      frangeAux fuel current stop step = some l →
      (∀ i : Fin l.length, l.get i = round2 (current + (i : ℕ) * step)) ∧
      (∀ i : ℕ, i < l.length → current + (i : ℚ) * step ≤ stop + eps) ∧
      (stop + eps < current + (l.length : ℚ) * step) ∧
      (current ≤ stop + eps → l ≠ []) := by
  intro fuel
  induction fuel with
  | zero => intro current stop step l h; simp [frangeAux] at h
  | succ fuel ih =>
    intro current stop step l h
    by_cases hc : current ≤ stop + eps
    · rw [frangeAux, if_pos hc] at h
      cases hsub : frangeAux fuel (current + step) stop step with
      | none => rw [hsub] at h; simp at h
      | some ltail =>
        rw [hsub] at h
        simp only [Option.map_some', Option.some.injEq] at h
        obtain ⟨hget, hle, hterm, _⟩ := ih (current + step) stop step ltail hsub
        subst h
        refine ⟨?_, ?_, ?_, ?_⟩
        · rintro ⟨i, hi⟩
          cases i with
          | zero => simp
          | succ j =>
            have hj : j < ltail.length := by
              simpa using hi
            have := hget ⟨j, hj⟩
            simp only [List.get] at this ⊢
            rw [this]
            congr 1
            push_cast
            ring
        · intro i hi
          cases i with
          | zero => simpa using hc
          | succ j =>
            have hj : j < ltail.length := by
              simpa using hi
            have := hle j hj
            push_cast
            push_cast at this
            linarith
        · have : ((round2 current :: ltail).length : ℚ) = (ltail.length : ℚ) + 1 := by
            push_cast [List.length_cons]
            ring
          rw [this]
          linarith
        · intro _
          simp
    · rw [frangeAux, if_neg hc] at h
      have hl : l = [] := by
        simpa using h.symm
      subst hl
      push_neg at hc
      refine ⟨?_, ?_, ?_, ?_⟩
      · rintro ⟨i, hi⟩; simp at hi
      · intro i hi; simp at hi
      · simpa using hc
      · intro hcon; exact absurd hcon (not_le.mpr hc)

/-- With a non-positive step and `start ≤ stop + ε` the loop of `frange`
never terminates, whatever the fuel. -/
lemma frangeAux_none_of_nonpos {step : ℚ} (hstep : step ≤ 0) :
    ∀ (fuel : ℕ) (current stop : ℚ), current ≤ stop + eps →
      frangeAux fuel current stop step = none := by
  intro fuel
  induction fuel with
  | zero => intro current stop _; rfl
  | succ fuel ih =>
    intro current stop hc
    rw [frangeAux, if_pos hc, ih (current + step) stop (by linarith)]
    rfl

/-! ## Claim C2: the grid generator's per-knob sequence -/

/-- C2 counterexample.  At `(start, stop, step) = (0.999, 0.999, 1)` the
code produces `[1.0]` — `round(0.999, 2) = 1.0` — so the sequence does not
start at `start` and its last element `1.0` exceeds `stop = 0.999` by
`0.001`, far beyond the tolerance `1e-9`.  This refutes both the "starts
at `start`" and the "last element `e ≤ stop`" parts of the claim as
universally stated. -/
theorem c2_counterexample :
    frangeAux 10 (999 / 1000) (999 / 1000) 1 = some [1] ∧
    (999 / 1000 : ℚ) < 1 := by
  constructor
  · norm_num [frangeAux, round2, roundHalfEven, round_eq, eps]
  · norm_num

/-- C2 (amended).  For `start ≤ stop` and `start`, `stop`, `step` all exact
two-decimal values (so that the rounding of emitted values is the
identity) with `step > 0`, any terminating run of `frange` emits
`round(start + i*step, 2) = start + i*step` as its `i`-th element, in
particular starting at `start`; emits values exactly while
`value ≤ stop + 1e-9`; is non-decreasing; and its last element `e`
satisfies `e ≤ stop` and `stop < e + step`.  The sample grid
`(0.8, 1.0, 0.05)` yields `[0.80, 0.85, 0.90, 0.95, 1.00]`. -/
theorem c2_amended_grid (start stop step : ℚ) (fuel : ℕ) (l : List ℚ)
    (hs : twoDec start) (ht : twoDec stop) (hp : twoDec step)
    (hpos : 0 < step) (hss : start ≤ stop)
    (h : frangeAux fuel start stop step = some l) :
    l.head? = some start ∧
    (∀ i : Fin l.length,
      l.get i = round2 (start + (i : ℕ) * step) ∧
      round2 (start + (i : ℕ) * step) = start + (i : ℕ) * step) ∧
    List.Sorted (· ≤ ·) l ∧
    (∀ h0 : l ≠ [], l.getLast h0 ≤ stop ∧ stop < l.getLast h0 + step) ∧
    (∀ i : ℕ, i < l.length → start + (i : ℚ) * step ≤ stop + eps) ∧
    frangeAux 10 (4 / 5) 1 (1 / 20) = some [4 / 5, 17 / 20, 9 / 10, 19 / 20, 1] := by
  obtain ⟨hget, hle, hterm, hne⟩ := frangeAux_spec fuel start stop step l h
  have hepspos : (0 : ℚ) < eps := by norm_num [eps]
  have h2d : ∀ i : ℕ, twoDec (start + (i : ℚ) * step) :=
    fun i => twoDec_add hs (twoDec_nsmul hp i)
  have hval : ∀ i : Fin l.length, l.get i = start + ((i : ℕ) : ℚ) * step := by
    intro i
    rw [hget i, round2_twoDec (h2d i)]
  have hnil : l ≠ [] := hne (by linarith)
  refine ⟨?_, ?_, ?_, ?_, hle, ?_⟩
  · cases l with
    | nil => exact absurd rfl hnil
    | cons a t =>
      have := hval ⟨0, by simp⟩
      simp only [List.get] at this
      simp [this]
  · intro i
    exact ⟨hget i, round2_twoDec (h2d i)⟩
  · rw [List.Sorted, List.pairwise_iff_get]
    intro i j hij
    rw [hval i, hval j]
    have : ((i : ℕ) : ℚ) ≤ ((j : ℕ) : ℚ) := by
      exact_mod_cast le_of_lt hij
    nlinarith
  · intro h0
    have hlen : 1 ≤ l.length := List.length_pos.mpr h0
    have hlt : l.length - 1 < l.length := by omega
    rw [List.getLast_eq_getElem]
    show l.get ⟨l.length - 1, hlt⟩ ≤ stop ∧ stop < l.get ⟨l.length - 1, hlt⟩ + step
    rw [hval ⟨l.length - 1, hlt⟩]
    have hcast : ((l.length - 1 : ℕ) : ℚ) = (l.length : ℚ) - 1 := by
      rw [Nat.cast_sub hlen, Nat.cast_one]
    constructor
    · refine twoDec_le_of_le_add_eps (h2d _) ht ?_
      exact hle (l.length - 1) hlt
    · rw [hcast]
      have := hterm
      nlinarith
  · norm_num [frangeAux, round2, roundHalfEven, round_eq, eps]

/-- C2 witness: the amended theorem applied at the sample grid
`(0.8, 1.0, 0.05)` with fuel 10. -/
theorem c2_amended_grid_witness :
    ([4 / 5, 17 / 20, 9 / 10, 19 / 20, 1] : List ℚ).head? = some (4 / 5) := by
  have h := c2_amended_grid (4 / 5) 1 (1 / 20) 10 [4 / 5, 17 / 20, 9 / 10, 19 / 20, 1]
    ⟨80, by norm_num⟩ ⟨100, by norm_num⟩ ⟨5, by norm_num⟩ (by norm_num) (by norm_num)
    (by norm_num [frangeAux, round2, roundHalfEven, round_eq, eps])
  exact h.1

/-! ## Claim C7: invalid step is not a surfaced fault — the loop diverges -/

/-- C7 counterexample.  With `step = -1 ≤ 0` and `start = stop = 0` the
grid generator does not fail at sweep start: its `while` loop never
terminates (no fuel suffices), so no fault is surfaced at all — the
process hangs inside `frange` instead. -/
theorem c7_counterexample : frangeDiverges 0 0 (-1) := by
  intro fuel
  exact frangeAux_none_of_nonpos (by norm_num) fuel 0 0 (by norm_num [eps])

/-- C7 (amended).  A non-positive step with `start ≤ stop + ε` makes the
`frange` loop run forever: no exception is raised, and because the three
`frange` calls of `run_optimization` precede the creation of the result
store and the whole sweep loop, no partial store is created and nothing is
evaluated — the run simply never gets past grid generation. -/
theorem c7_amended_divergence (start stop step : ℚ) (fuel : ℕ)
    (eval : ℕ → Option ℚ) (r2 r3 : ℚ × ℚ × ℚ)
    (hstep : step ≤ 0) (hss : start ≤ stop + eps) :
    frangeAux fuel start stop step = none ∧
    sweepPipeline fuel eval (start, stop, step) r2 r3 = none := by
  have h := frangeAux_none_of_nonpos hstep fuel start stop hss
  exact ⟨h, by simp [sweepPipeline, h]⟩

/-- C7 witness: the amended theorem at `(0, 0, -1)` with fuel 3. -/
theorem c7_amended_divergence_witness : frangeAux 3 0 0 (-1) = none :=
  (c7_amended_divergence 0 0 (-1) 3 (fun _ => none) (0, 0, 0) (0, 0, 0)
    (by norm_num) (by norm_num [eps])).1

/-! ## Claims C1 and C6: the sweep loop and its summary -/

lemma sweepStep_rows (eval : ℕ → Option ℚ) (st : SweepState)
    (ic : ℕ × (ℚ × ℚ × ℚ)) :
    (sweepStep eval st ic).rows =
      st.rows ++ ((eval ic.1).map (rowOf ic.1 ic.2)).toList := by
  unfold sweepStep
  cases eval ic.1 with
  | none => simp
  | some profit =>
    by_cases hb : beatsBest st.best_score profit <;> simp [hb]

lemma foldl_sweepStep_rows (eval : ℕ → Option ℚ) :
    ∀ (l : List (ℕ × (ℚ × ℚ × ℚ))) (st : SweepState),
      (l.foldl (sweepStep eval) st).rows =
        st.rows ++ l.filterMap (fun ic => (eval ic.1).map (rowOf ic.1 ic.2)) := by
  intro l
  induction l with
  | nil => intro st; simp
  | cons a t ih =>
    intro st
    rw [List.foldl_cons, ih, List.filterMap_cons]
    cases h : eval a.1 with
    | none => simp [sweepStep_rows, h]
    | some profit => simp [sweepStep_rows, h]

lemma foldl_sweepStep_allcrash (eval : ℕ → Option ℚ) (h : ∀ i, eval i = none) :
    ∀ (l : List (ℕ × (ℚ × ℚ × ℚ))) (st : SweepState),
      l.foldl (sweepStep eval) st = st := by
  intro l
  induction l with
  | nil => intro st; rfl
  | cons a t ih =>
    intro st
    rw [List.foldl_cons]
    have hstep : sweepStep eval st a = st := by
      unfold sweepStep
      rw [h a.1]
    rw [hstep, ih]

lemma foldl_sweepStep_sentinel (eval : ℕ → Option ℚ)
    (h : ∀ i, eval i = some (-99999)) :
    ∀ (l : List (ℕ × (ℚ × ℚ × ℚ))) (st : SweepState),
      st.best_score = some (-99999) →
      (l.foldl (sweepStep eval) st).best_score = some (-99999) ∧
      (l.foldl (sweepStep eval) st).best_params = st.best_params := by
  intro l
  induction l with
  | nil => intro st hst; exact ⟨hst, rfl⟩
  | cons a t ih =>
    intro st hst
    rw [List.foldl_cons]
    have hstep : sweepStep eval st a =
        ⟨st.rows ++ [rowOf a.1 a.2 (-99999)], st.best_score, st.best_params⟩ := by
      unfold sweepStep
      rw [h a.1]
      have hb : beatsBest st.best_score (-99999) = false := by
        rw [hst]
        simp [beatsBest]
      simp [hb]
    rw [hstep]
    exact ih _ hst

/-- When every delivered report parses, the faithful sweep model agrees
with the `Option ℚ`-oracle model and raises nothing. -/
lemma runSweepAux_clean (sim : ℕ → Option (List Char)) (name : List Char) :
    ∀ (l : List (ℕ × (ℚ × ℚ × ℚ))) (st : SweepState),
      (∀ p ∈ l, ∀ lg, sim p.1 = some lg →
        ∃ v, parse_profit_from_log lg name = Except.ok v) →
      runSweepAux sim name l st =
        (l.foldl (sweepStep (evalOf sim name)) st, none) := by
  intro l
  induction l with
  | nil => intro st _; rfl
  | cons ic rest ih =>
    intro st hok
    rw [List.foldl_cons]
    cases hsim : sim ic.1 with
    | none =>
      have h1 : runSweepAux sim name (ic :: rest) st =
          runSweepAux sim name rest st := by
        simp only [runSweepAux, hsim]
      have h2 : sweepStep (evalOf sim name) st ic = st := by
        unfold sweepStep evalOf
        simp only [hsim]
      rw [h1, h2]
      exact ih st (fun p hp => hok p (List.mem_cons_of_mem _ hp))
    | some log =>
      obtain ⟨v, hv⟩ := hok ic (List.mem_cons_self _ _) log hsim
      have heval : evalOf sim name ic.1 = some v := by
        unfold evalOf
        simp only [hsim, hv]
      have h2 : sweepStep (evalOf sim name) st ic =
          (if beatsBest st.best_score v then
            ⟨st.rows ++ [rowOf ic.1 ic.2 v], some v, some ic.2⟩
          else
            ⟨st.rows ++ [rowOf ic.1 ic.2 v], st.best_score, st.best_params⟩) := by
        unfold sweepStep
        simp only [heval]
      have h1 : runSweepAux sim name (ic :: rest) st =
          runSweepAux sim name rest
            (if beatsBest st.best_score v then
              ⟨st.rows ++ [rowOf ic.1 ic.2 v], some v, some ic.2⟩
            else
              ⟨st.rows ++ [rowOf ic.1 ic.2 v], st.best_score, st.best_params⟩) := by
        simp only [runSweepAux, hsim, hv]
      rw [h1, h2]
      exact ih _ (fun p hp => hok p (List.mem_cons_of_mem _ hp))

/-- If some combination's report matches the pattern but its captured
token does not parse, the sweep aborts right there: the store keeps
exactly the rows of the already-processed prefix, the failing
combination writes no row, and the combinations after it are never
evaluated. -/
lemma runSweepAux_abort (sim : ℕ → Option (List Char)) (name : List Char) :
    ∀ (l1 : List (ℕ × (ℚ × ℚ × ℚ))) (ic : ℕ × (ℚ × ℚ × ℚ))
      (l2 : List (ℕ × (ℚ × ℚ × ℚ))) (st : SweepState) (log : List Char)
      (e : PyErr),
      (∀ p ∈ l1, ∀ lg, sim p.1 = some lg →
        ∃ v, parse_profit_from_log lg name = Except.ok v) →
      sim ic.1 = some log →
      parse_profit_from_log log name = Except.error e →
      runSweepAux sim name (l1 ++ ic :: l2) st =
        (l1.foldl (sweepStep (evalOf sim name)) st, some e) := by
  intro l1
  induction l1 with
  | nil =>
    intro ic l2 st log e _ hsim hparse
    rw [List.nil_append, List.foldl_nil]
    simp only [runSweepAux, hsim, hparse]
  | cons p t ih =>
    intro ic l2 st log e hok hsim hparse
    rw [List.cons_append, List.foldl_cons]
    cases hsimp : sim p.1 with
    | none =>
      have h1 : runSweepAux sim name (p :: (t ++ ic :: l2)) st =
          runSweepAux sim name (t ++ ic :: l2) st := by
        simp only [runSweepAux, hsimp]
      have h2 : sweepStep (evalOf sim name) st p = st := by
        unfold sweepStep evalOf
        simp only [hsimp]
      rw [h1, h2]
      exact ih ic l2 st log e (fun q hq => hok q (List.mem_cons_of_mem _ hq))
        hsim hparse
    | some lg =>
      obtain ⟨v, hv⟩ := hok p (List.mem_cons_self _ _) lg hsimp
      have heval : evalOf sim name p.1 = some v := by
        unfold evalOf
        simp only [hsimp, hv]
      have h2 : sweepStep (evalOf sim name) st p =
          (if beatsBest st.best_score v then
            ⟨st.rows ++ [rowOf p.1 p.2 v], some v, some p.2⟩
          else
            ⟨st.rows ++ [rowOf p.1 p.2 v], st.best_score, st.best_params⟩) := by
        unfold sweepStep
        simp only [heval]
      have h1 : runSweepAux sim name (p :: (t ++ ic :: l2)) st =
          runSweepAux sim name (t ++ ic :: l2)
            (if beatsBest st.best_score v then
              ⟨st.rows ++ [rowOf p.1 p.2 v], some v, some p.2⟩
            else
              ⟨st.rows ++ [rowOf p.1 p.2 v], st.best_score, st.best_params⟩) := by
        simp only [runSweepAux, hsimp, hv]
      rw [h1, h2]
      exact ih ic l2 _ log e (fun q hq => hok q (List.mem_cons_of_mem _ hq))
        hsim hparse

/-- C1 counterexample.  Two refutations of the unconditional claim on the
faithful model.  First, a two-combination grid whose first combination
crashes in the simulator ends with a one-row store and no sentinel
record: the `except … continue` path skips the CSV append.  Second, a
grid whose second combination produces a report with a matched but
malformed fitness token aborts the whole sweep with an uncaught
`ValueError` from `parse_profit_from_log` (called outside the `try`),
leaving only the first combination's row — the fault is not caught at
single-combination granularity. -/
theorem c1_counterexample :
    ([((1 : ℚ), (1 : ℚ), (1 : ℚ)), ((2 : ℚ), (2 : ℚ), (2 : ℚ))] :
        List (ℚ × ℚ × ℚ)).length = 2 ∧
    runSweepFull simCrashGood botA [(1, 1, 1), (2, 2, 2)] =
      (⟨[⟨2, 2, 2, 2, 5, 15⟩], some 5, some (2, 2, 2)⟩, none) ∧
    runSweepFull simGoodBad botA [(1, 1, 1), (2, 2, 2)] =
      (⟨[⟨1, 1, 1, 1, 5, 15⟩], some 5, some (1, 1, 1)⟩,
        some PyErr.valueError) := by
  have hgood : parse_profit_from_log goodLog botA = Except.ok 5 := by
    have h1 : searchFrom botA goodLog = some ['5'] := by decide
    have h2 : pyFloatOfToken ['5'] = some (5, 0) := by decide
    simp only [parse_profit_from_log, h1, h2]
    norm_num [floatValue]
  have hbad : parse_profit_from_log reportBad botA =
      Except.error PyErr.valueError := by
    have h1 : searchFrom botA reportBad = some ['.'] := by decide
    have h2 : pyFloatOfToken ['.'] = none := by decide
    simp only [parse_profit_from_log, h1, h2]
  refine ⟨rfl, ?_, ?_⟩
  · simp [runSweepFull, runSweepAux, List.enum, List.enumFrom, simCrashGood,
      hgood, beatsBest, rowOf, SIMS_PER_RUN]
  · simp [runSweepFull, runSweepAux, List.enum, List.enumFrom, simGoodBad,
      hgood, hbad, beatsBest, rowOf, SIMS_PER_RUN]

/-- C1 (amended).  In the faithful model of the sweep loop: a combination
whose `run_simulation` raises is caught at single-combination granularity
— it writes no row and the remaining combinations proceed unaffected —
and each combination whose captured report parses (possibly to the
sentinel, on an extraction miss) appends exactly one row, in enumeration
order; so as long as every captured report parses, the store ends with
exactly one row per non-crashed combination.  But evaluation faults are
not all caught: if some combination's report matches the pattern with a
malformed fitness token, `parse_profit_from_log` (outside the `try`)
raises an uncaught `ValueError` that aborts the whole sweep, the store
keeps only the rows of the earlier combinations, and the remaining
combinations are never evaluated. -/
theorem c1_amended_rows :
    (∀ (sim : ℕ → Option (List Char)) (name : List Char)
      (combos : List (ℚ × ℚ × ℚ)),
      (∀ i log, sim i = some log →
        ∃ v, parse_profit_from_log log name = Except.ok v) →
      runSweepFull sim name combos =
        (runSweep (evalOf sim name) combos, none) ∧
      (runSweep (evalOf sim name) combos).rows =
        combos.enum.filterMap
          (fun ic => (evalOf sim name ic.1).map (rowOf ic.1 ic.2))) ∧
    (∀ (sim : ℕ → Option (List Char)) (name : List Char)
      (l1 : List (ℕ × (ℚ × ℚ × ℚ))) (ic : ℕ × (ℚ × ℚ × ℚ))
      (l2 : List (ℕ × (ℚ × ℚ × ℚ))) (st : SweepState) (log : List Char)
      (e : PyErr),
      (∀ p ∈ l1, ∀ lg, sim p.1 = some lg →
        ∃ v, parse_profit_from_log lg name = Except.ok v) →
      sim ic.1 = some log →
      parse_profit_from_log log name = Except.error e →
      runSweepAux sim name (l1 ++ ic :: l2) st =
        (l1.foldl (sweepStep (evalOf sim name)) st, some e)) := by
  constructor
  · intro sim name combos hok
    constructor
    · unfold runSweepFull runSweep
      exact runSweepAux_clean sim name combos.enum ⟨[], none, none⟩
        (fun p _ lg h => hok p.1 lg h)
    · unfold runSweep
      rw [foldl_sweepStep_rows]
      simp
  · intro sim name l1 ic l2 st log e hok hsim hparse
    exact runSweepAux_abort sim name l1 ic l2 st log e hok hsim hparse

/-- C1 witness: the abort branch of the amended theorem at a concrete
one-combination grid whose report carries a malformed token. -/
theorem c1_amended_rows_witness :
    runSweepAux (fun _ => some reportBad) botA
      [(0, ((1 : ℚ), (1 : ℚ), (1 : ℚ)))] ⟨[], none, none⟩ =
      (⟨[], none, none⟩, some PyErr.valueError) := by
  have hbad : parse_profit_from_log reportBad botA =
      Except.error PyErr.valueError := by
    have h1 : searchFrom botA reportBad = some ['.'] := by decide
    have h2 : pyFloatOfToken ['.'] = none := by decide
    simp only [parse_profit_from_log, h1, h2]
  have h := c1_amended_rows.2 (fun _ => some reportBad) botA []
    (0, ((1 : ℚ), (1 : ℚ), (1 : ℚ))) [] ⟨[], none, none⟩ reportBad
    PyErr.valueError (fun p hp => absurd hp (List.not_mem_nil p)) rfl hbad
  simpa using h

/-- C6 counterexample.  If every combination fails by crashing, the
best-fitness value held at the end is `-inf` (`None` here), not the
sentinel `-99999`, and the final summary does not report "no viable
configuration": it raises `TypeError` while subscripting
`best_params = None`. -/
theorem c6_counterexample :
    (runSweep (fun _ => none) [((1 : ℚ), (1 : ℚ), (1 : ℚ))]).best_score = none ∧
    (none : Option ℚ) ≠ some (-99999) ∧
    finalSummary (runSweep (fun _ => none) [((1 : ℚ), (1 : ℚ), (1 : ℚ))]) =
      .error .typeError := by
  refine ⟨?_, by simp, ?_⟩
  · simp [runSweep, List.enum, List.enumFrom, sweepStep]
  · simp [runSweep, List.enum, List.enumFrom, sweepStep, finalSummary]

/-- C6 (amended).  On a non-empty grid: if every combination returns the
sentinel fitness (all extraction misses), the final best score is the
sentinel and the summary reports it like any genuine best score, paired
with the first combination — there is no "no viable configuration"
branch; if instead every combination crashes, the best score stays `-inf`
and printing the summary raises `TypeError` on `best_params[0]`. -/
theorem c6_amended_summary (combos : List (ℚ × ℚ × ℚ)) (c0 : ℚ × ℚ × ℚ)
    (eval evalC : ℕ → Option ℚ)
    (hhead : combos.head? = some c0)
    (hs : ∀ i, eval i = some (-99999))
    (hc : ∀ i, evalC i = none) :
    (runSweep eval combos).best_score = some (-99999) ∧
    finalSummary (runSweep eval combos) = .ok (some (-99999), c0) ∧
    (runSweep evalC combos).best_score = none ∧
    finalSummary (runSweep evalC combos) = .error .typeError := by
  obtain ⟨rest, rfl⟩ : ∃ rest, combos = c0 :: rest := by
    cases combos with
    | nil => simp at hhead
    | cons a t =>
      simp only [List.head?] at hhead
      exact ⟨t, by rw [Option.some_inj.mp hhead]⟩
  have hcrash := foldl_sweepStep_allcrash evalC hc
    ((c0 :: rest).enum) ⟨[], none, none⟩
  have henum : (c0 :: rest).enum = (0, c0) :: rest.enumFrom 1 := by
    simp [List.enum]
  have hfirst : sweepStep eval ⟨[], none, none⟩ (0, c0) =
      ⟨[rowOf 0 c0 (-99999)], some (-99999), some c0⟩ := by
    unfold sweepStep
    rw [hs 0]
    simp [beatsBest]
  have hrest := foldl_sweepStep_sentinel eval hs (rest.enumFrom 1)
    ⟨[rowOf 0 c0 (-99999)], some (-99999), some c0⟩ rfl
  have hrun : (runSweep eval (c0 :: rest)).best_score = some (-99999) ∧
      (runSweep eval (c0 :: rest)).best_params = some c0 := by
    unfold runSweep
    rw [henum, List.foldl_cons, hfirst]
    exact ⟨hrest.1, hrest.2⟩
  refine ⟨hrun.1, ?_, ?_, ?_⟩
  · unfold finalSummary
    rw [hrun.2, hrun.1]
  · unfold runSweep
    rw [hcrash]
  · unfold runSweep finalSummary
    rw [hcrash]

/-- C6 witness: the amended theorem at a one-combination grid with the
all-sentinel oracle and the all-crash oracle. -/
theorem c6_amended_summary_witness :
    (runSweep (fun _ => some (-99999)) [((1 : ℚ), (2 : ℚ), (3 : ℚ))]).best_score =
      some (-99999) ∧
    finalSummary (runSweep (fun _ => none) [((1 : ℚ), (2 : ℚ), (3 : ℚ))]) =
      .error .typeError := by
  have h := c6_amended_summary [((1 : ℚ), (2 : ℚ), (3 : ℚ))] (1, 2, 3)
    (fun _ => some (-99999)) (fun _ => none) rfl (fun _ => rfl) (fun _ => rfl)
  exact ⟨h.1, h.2.2.2⟩

/-! ## Claim C3: the fitness extractor -/

/-- C3 counterexample.  On the report `"### Bot A # ."` with key `"Bot A"`
no line matches `### Bot A # <number>` — the token after the final `#` is
`"."`, which is not a number — so the claim demands the sentinel; but the
regex does match, capturing `"."`, and `float(".")` raises `ValueError`,
which propagates out of the extractor instead of the sentinel return. -/
theorem c3_counterexample :
    searchFrom botA reportBad = some ['.'] ∧
    pyFloatOfToken ['.'] = none ∧
    parse_profit_from_log reportBad botA = .error .valueError := by
  have h1 : searchFrom botA reportBad = some ['.'] := by decide
  have h2 : pyFloatOfToken ['.'] = none := by decide
  refine ⟨h1, h2, ?_⟩
  simp only [parse_profit_from_log, h1, h2]

/-- C3 (amended).  The extractor returns the number captured by the first
(leftmost) match of `### <agent-name> # ([0-9.-]+)` in the report, with
the agent name matched literally, and returns the sentinel `-99999.0`
when no match exists; but when the first match's captured token does not
parse as a float, it raises `ValueError` rather than returning the
sentinel or scanning further.  On the sample report, key `"Bot A"` gives
`12.5` and key `"Nonexistent"` the sentinel; name `"Bot.X"` does not
match text `"### BotYX # 5.0"`; with two matching lines the first wins. -/
theorem c3_amended_extractor :
    (∀ text name, searchFrom name text = none →
      parse_profit_from_log text name = .ok (-99999)) ∧
    (∀ text name cap, searchFrom name text = some cap →
      pyFloatOfToken cap = none →
      parse_profit_from_log text name = .error .valueError) ∧
    (∀ text name cap v, searchFrom name text = some cap →
      pyFloatOfToken cap = some v →
      parse_profit_from_log text name = .ok (floatValue v)) ∧
    parse_profit_from_log exReport botA = .ok (25 / 2) ∧
    parse_profit_from_log exReport nonexistentName = .ok (-99999) ∧
    searchFrom botDotX reportYX = none ∧
    parse_profit_from_log reportYX botDotX = .ok (-99999) ∧
    parse_profit_from_log reportTwo botA = .ok 1 := by
  have hmiss : ∀ text name, searchFrom name text = none →
      parse_profit_from_log text name = .ok (-99999) := by
    intro text name h
    simp only [parse_profit_from_log, h]
  have hbadtok : ∀ text name cap, searchFrom name text = some cap →
      pyFloatOfToken cap = none →
      parse_profit_from_log text name = .error .valueError := by
    intro text name cap h1 h2
    simp only [parse_profit_from_log, h1, h2]
  have hok : ∀ text name cap v, searchFrom name text = some cap →
      pyFloatOfToken cap = some v →
      parse_profit_from_log text name = .ok (floatValue v) := by
    intro text name cap v h1 h2
    simp only [parse_profit_from_log, h1, h2]
  refine ⟨hmiss, hbadtok, hok, ?_, ?_, ?_, ?_, ?_⟩
  · have h1 : searchFrom botA exReport = some ['1', '2', '.', '5', '0'] := by
      decide
    have h2 : pyFloatOfToken ['1', '2', '.', '5', '0'] = some (1250, 2) := by
      decide
    rw [hok exReport botA _ _ h1 h2]
    norm_num [floatValue]
  · exact hmiss exReport nonexistentName (by decide)
  · decide
  · exact hmiss reportYX botDotX (by decide)
  · have h1 : searchFrom botA reportTwo = some ['1'] := by decide
    have h2 : pyFloatOfToken ['1'] = some (1, 0) := by decide
    rw [hok reportTwo botA _ _ h1 h2]
    norm_num [floatValue]

/-- C3 witness: the sentinel branch of the amended theorem at the literal
`"Bot.X"`-vs-`"### BotYX # 5.0"` input. -/
theorem c3_amended_extractor_witness :
    parse_profit_from_log reportYX botDotX = Except.ok (-99999) :=
  c3_amended_extractor.1 reportYX botDotX (by decide)

/-! ## Lemmas on the pacing computation -/

/-- The `try`-block value: either a well-defined derivative in `[0, 1/4]`
or an `OverflowError` — never any other fault, provided the exponential
model is nonnegative (float `math.exp` returns values `≥ 0`). -/
lemma derivRaw_cases (E : ℚ → Option ℚ) (hE : ∀ x y, E x = some y → 0 ≤ y)
    (x : ℚ) :
    (∃ y, E (-x) = some y ∧ maxFloat < (1 + y) ^ 2 ∧
       derivRaw E x = .error .overflow) ∨
    (∃ y, E (-x) = some y ∧ ¬ maxFloat < (1 + y) ^ 2 ∧
       derivRaw E x = .ok (y / (1 + y) ^ 2) ∧
       0 ≤ y / (1 + y) ^ 2 ∧ y / (1 + y) ^ 2 ≤ 1 / 4) ∨
    (E (-x) = none ∧ derivRaw E x = .error .overflow) := by
  cases hEx : E (-x) with
  | none =>
    right; right
    exact ⟨rfl, by simp [derivRaw, pyExp, hEx]⟩
  | some y =>
    have hy := hE _ _ hEx
    have h1y : (0 : ℚ) < 1 + y := by linarith
    have hsq : (0 : ℚ) < (1 + y) ^ 2 := pow_pos h1y 2
    by_cases hpow : maxFloat < (1 + y) ^ 2
    · left
      exact ⟨y, rfl, hpow, by simp [derivRaw, pyExp, hEx, pyPowTwo, if_pos hpow]⟩
    · right; left
      refine ⟨y, rfl, hpow, ?_, ?_, ?_⟩
      · simp [derivRaw, pyExp, hEx, pyPowTwo, if_neg hpow, pyDiv, hsq.ne']
      · exact div_nonneg hy (le_of_lt hsq)
      · rw [div_le_iff₀ hsq]
        nlinarith [sq_nonneg (1 - y)]

/-- After the `except OverflowError` handler the derivative always exists
and lies in `[0, 1/4]`. -/
lemma derivTry_ok (E : ℚ → Option ℚ) (hE : ∀ x y, E x = some y → 0 ≤ y)
    (x : ℚ) :
    ∃ d, derivTry E x = .ok d ∧ 0 ≤ d ∧ d ≤ 1 / 4 := by
  rcases derivRaw_cases E hE x with ⟨y, _, _, herr⟩ | ⟨y, _, _, hok, h0, h4⟩ |
    ⟨_, herr⟩
  · exact ⟨0, by simp [derivTry, herr], le_refl 0, by norm_num⟩
  · exact ⟨y / (1 + y) ^ 2, by simp [derivTry, hok], h0, h4⟩
  · exact ⟨0, by simp [derivTry, herr], le_refl 0, by norm_num⟩

/-- The tunable urgency multiplier always evaluates (under a nonnegative
exponential) to `base_lift + d * peak` with `d ∈ [0, 1/4]`. -/
lemma urgencyOf_ok (E : ℚ → Option ℚ) (hE : ∀ x y, E x = some y → 0 ≤ y)
    (p : ParameterVector) (progress : ℚ) :
    ∃ d, urgencyOf E p progress = .ok (p.p_base_lift + d * p.p_peak_multiplier) ∧
      0 ≤ d ∧ d ≤ 1 / 4 := by
  obtain ⟨d, hd, h0, h4⟩ := derivTry_ok E hE (xOf p.p_steepness progress)
  exact ⟨d, by simp [urgencyOf, hd], h0, h4⟩

/-- A successful tunable-agent iteration always returns a bundle of the
`mkBundle` shape. -/
lemma tunStep_ok_some {E : ℚ → Option ℚ} {p : ParameterVector}
    {c : CampaignInfo} {bd : BidBundle}
    (h : tunStep E p c = .ok (some bd)) :
    ∃ base_bid urgency, bd = mkBundle c base_bid urgency := by
  unfold tunStep at h
  split_ifs at h with hg
  · simp at h
  · split at h
    · simp at h
    · split at h
      · simp at h
      · split at h
        · simp at h
        · simp only [Except.ok.injEq, Option.some.injEq] at h
          exact ⟨_, _, h.symm⟩

/-- A successful my-agent iteration always returns a bundle of the
`mkBundle` shape. -/
lemma myStep_ok_some {E : ℚ → Option ℚ} {c : CampaignInfo} {bd : BidBundle}
    (h : myStep E c = .ok (some bd)) :
    ∃ base_bid urgency, bd = mkBundle c base_bid urgency := by
  unfold myStep at h
  split_ifs at h with hg
  · simp at h
  · split at h
    · simp at h
    · split at h
      · simp at h
      · split at h
        · simp at h
        · simp only [Except.ok.injEq, Option.some.injEq] at h
          exact ⟨_, _, h.symm⟩

/-- A positive remaining reach forces `0 ≤ done < reach` (given the
campaign's counters are nonnegative), hence `reach ≥ 1` and
`remaining ≥ 1`. -/
lemma guard_bounds {c : CampaignInfo} (hdone : 0 ≤ c.done)
    (hr : 0 < remainingOf c) :
    c.done < c.reach ∧ 1 ≤ remainingOf c ∧ 1 ≤ c.reach := by
  unfold remainingOf at hr ⊢
  by_cases hcd : c.reach - c.done ≤ 0
  · rw [max_eq_right hcd] at hr
    exact absurd hr (lt_irrefl 0)
  · push_neg at hcd
    rw [max_eq_left (le_of_lt hcd)]
    omega

/-- Under a nonnegative exponential and a nonnegative reach counter the
tunable-agent iteration never raises at all. -/
lemma tunStep_never_err (E : ℚ → Option ℚ)
    (hE : ∀ x y, E x = some y → 0 ≤ y) (p : ParameterVector)
    (c : CampaignInfo) (hdone : 0 ≤ c.done) :
    ∃ r, tunStep E p c = .ok r := by
  unfold tunStep
  by_cases hg : remainingOf c ≤ 0 ∨ remainingBudgetOf c ≤ 0
  · rw [if_pos hg]
    exact ⟨none, rfl⟩
  · rw [if_neg hg]
    push_neg at hg
    obtain ⟨hr, hb⟩ := hg
    obtain ⟨hlt, hrem1, hreach1⟩ := guard_bounds hdone hr
    have hne1 : ((remainingOf c : ℤ) : ℚ) ≠ 0 := by
      exact_mod_cast (by omega : (remainingOf c : ℤ) ≠ 0)
    have hne2 : ((c.reach : ℤ) : ℚ) ≠ 0 := by
      exact_mod_cast (by omega : (c.reach : ℤ) ≠ 0)
    have h1 : pyDiv (remainingBudgetOf c) ((remainingOf c : ℤ) : ℚ) =
        .ok (remainingBudgetOf c / ((remainingOf c : ℤ) : ℚ)) := by
      unfold pyDiv
      rw [if_neg hne1]
    have h2 : pyDiv ((c.done : ℤ) : ℚ) ((c.reach : ℤ) : ℚ) =
        .ok (((c.done : ℤ) : ℚ) / ((c.reach : ℤ) : ℚ)) := by
      unfold pyDiv
      rw [if_neg hne2]
    obtain ⟨d, hd, _, _⟩ :=
      derivTry_ok E hE (xOf p.p_steepness (((c.done : ℤ) : ℚ) / ((c.reach : ℤ) : ℚ)))
    have h3 : urgencyOf E p (((c.done : ℤ) : ℚ) / ((c.reach : ℤ) : ℚ)) =
        .ok (p.p_base_lift + d * p.p_peak_multiplier) := by
      unfold urgencyOf
      rw [hd]
    simp only [h1, h2, h3]
    exact ⟨_, rfl⟩

/-- The my-agent iteration can raise `OverflowError` in principle but never
`ZeroDivisionError`. -/
lemma myStep_not_zeroDiv (E : ℚ → Option ℚ)
    (hE : ∀ x y, E x = some y → 0 ≤ y) (c : CampaignInfo)
    (hdone : 0 ≤ c.done) :
    myStep E c ≠ .error .zeroDiv := by
  unfold myStep
  by_cases hg : remainingOf c ≤ 0 ∨ remainingBudgetOf c ≤ 0
  · rw [if_pos hg]
    simp
  · rw [if_neg hg]
    push_neg at hg
    obtain ⟨hr, hb⟩ := hg
    obtain ⟨hlt, hrem1, hreach1⟩ := guard_bounds hdone hr
    have hne1 : ((remainingOf c : ℤ) : ℚ) ≠ 0 := by
      exact_mod_cast (by omega : (remainingOf c : ℤ) ≠ 0)
    have hne2 : ((c.reach : ℤ) : ℚ) ≠ 0 := by
      exact_mod_cast (by omega : (c.reach : ℤ) ≠ 0)
    have h1 : pyDiv (remainingBudgetOf c) ((remainingOf c : ℤ) : ℚ) =
        .ok (remainingBudgetOf c / ((remainingOf c : ℤ) : ℚ)) := by
      unfold pyDiv
      rw [if_neg hne1]
    have h2 : pyDiv ((c.done : ℤ) : ℚ) ((c.reach : ℤ) : ℚ) =
        .ok (((c.done : ℤ) : ℚ) / ((c.reach : ℤ) : ℚ)) := by
      unfold pyDiv
      rw [if_neg hne2]
    rcases derivRaw_cases E hE (xOf 10 (((c.done : ℤ) : ℚ) / ((c.reach : ℤ) : ℚ)))
      with ⟨y, _, _, herr⟩ | ⟨y, _, _, hok, _, _⟩ | ⟨_, herr⟩
    · have hu : myUrgency E (((c.done : ℤ) : ℚ) / ((c.reach : ℤ) : ℚ)) =
          .error .overflow := by
        unfold myUrgency
        rw [herr]
      simp [h1, h2, hu]
    · have hu : myUrgency E (((c.done : ℤ) : ℚ) / ((c.reach : ℤ) : ℚ)) =
          .ok (1 / 5 + y / (1 + y) ^ 2 * 4) := by
        unfold myUrgency
        rw [hok]
      simp [h1, h2, hu]
    · have hu : myUrgency E (((c.done : ℤ) : ℚ) / ((c.reach : ℤ) : ℚ)) =
          .error .overflow := by
        unfold myUrgency
        rw [herr]
      simp [h1, h2, hu]

/-! ## Claim C4: the dormancy guard and the bid floor -/

/-- C4 (confirmed).  For any campaign: if the clamped remaining reach or
the clamped remaining budget is non-positive, neither agent produces a bid
for it (`continue`); and whenever either agent does produce a bundle, its
per-unit bid price is `max(base_bid * urgency, 0.01) ≥ 0.01`. -/
theorem c4_pacing_guard_floor (E : ℚ → Option ℚ) (p : ParameterVector)
    (c : CampaignInfo) :
    ((remainingOf c ≤ 0 ∨ remainingBudgetOf c ≤ 0) →
      tunStep E p c = .ok none ∧ myStep E c = .ok none) ∧
    (∀ bd, tunStep E p c = .ok (some bd) → 1 / 100 ≤ bd.bid.bid_per_item) ∧
    (∀ bd, myStep E c = .ok (some bd) → 1 / 100 ≤ bd.bid.bid_per_item) := by
  refine ⟨fun hg => ⟨?_, ?_⟩, ?_, ?_⟩
  · unfold tunStep
    rw [if_pos hg]
  · unfold myStep
    rw [if_pos hg]
  · intro bd h
    obtain ⟨bb, u, rfl⟩ := tunStep_ok_some h
    exact le_max_right _ _
  · intro bd h
    obtain ⟨bb, u, rfl⟩ := myStep_ok_some h
    exact le_max_right _ _

/-- C4 witness: a reach-exhausted campaign produces no bid. -/
theorem c4_pacing_guard_floor_witness :
    tunStep expOne ⟨4, 10, 1 / 5⟩ ⟨0, none, 0, 0, 0, 0⟩ = .ok none :=
  ((c4_pacing_guard_floor expOne ⟨4, 10, 1 / 5⟩ ⟨0, none, 0, 0, 0, 0⟩).1
    (Or.inl (by norm_num [remainingOf]))).1

/-! ## Claim C5: the per-period spend ceiling -/

/-- C5 counterexample.  The pacing rate is the fixed constant `0.95`, not a
knob of the `ParameterVector`: two parameter vectors differing in every
knob (two corners of the sweep grid) produce, for the same campaign
(remaining budget 100), bundles with the identical spend ceiling
`95 = max(1.0, 100 · 0.95)`. -/
theorem c5_counterexample :
    tunStep expOne ⟨3, 8, 1 / 10⟩ cHalf =
      .ok (some ⟨7, 95, ⟨85, 95, 3⟩⟩) ∧
    tunStep expOne ⟨6, 12, 3 / 10⟩ cHalf =
      .ok (some ⟨7, 95, ⟨180, 95, 3⟩⟩) ∧
    (⟨3, 8, 1 / 10⟩ : ParameterVector) ≠ ⟨6, 12, 3 / 10⟩ := by
  refine ⟨?_, ?_, ?_⟩
  · norm_num [tunStep, cHalf, remainingOf, remainingBudgetOf, budgetOrZero,
      urgencyOf, derivTry, derivRaw, pyExp, expOne, xOf, pyPowTwo, pyDiv,
      mkBundle, maxFloat, max_def]
  · norm_num [tunStep, cHalf, remainingOf, remainingBudgetOf, budgetOrZero,
      urgencyOf, derivTry, derivRaw, pyExp, expOne, xOf, pyPowTwo, pyDiv,
      mkBundle, maxFloat, max_def]
  · intro h
    have := congrArg ParameterVector.p_steepness h
    norm_num at this

/-- C5 (amended).  Whenever either agent produces a bundle, its per-period
spend ceiling (both the bundle limit and the bid limit) equals
`max(1.0, remaining_budget · 0.95)` with the pacing rate fixed at `0.95`
— it does not vary with the `ParameterVector`, whose knobs are
`peak_multiplier`, `steepness`, `base_lift` only. -/
theorem c5_amended_ceiling (E : ℚ → Option ℚ) (p : ParameterVector)
    (c : CampaignInfo) :
    (∀ bd, tunStep E p c = .ok (some bd) →
      bd.limit = max 1 (remainingBudgetOf c * (19 / 20)) ∧
      bd.bid.bid_limit = max 1 (remainingBudgetOf c * (19 / 20))) ∧
    (∀ bd, myStep E c = .ok (some bd) →
      bd.limit = max 1 (remainingBudgetOf c * (19 / 20))) := by
  constructor
  · intro bd h
    obtain ⟨bb, u, rfl⟩ := tunStep_ok_some h
    exact ⟨rfl, rfl⟩
  · intro bd h
    obtain ⟨bb, u, rfl⟩ := myStep_ok_some h
    exact rfl

/-- C5 witness: the amended theorem evaluated on the 50%-progress campaign
with remaining budget 100. -/
theorem c5_amended_ceiling_witness :
    (⟨7, 95, ⟨85, 95, 3⟩⟩ : BidBundle).limit =
      max 1 (remainingBudgetOf cHalf * (19 / 20)) := by
  have h := (c5_amended_ceiling expOne ⟨3, 8, 1 / 10⟩ cHalf).1
    ⟨7, 95, ⟨85, 95, 3⟩⟩
    (by norm_num [tunStep, cHalf, remainingOf, remainingBudgetOf, budgetOrZero,
      urgencyOf, derivTry, derivRaw, pyExp, expOne, xOf, pyPowTwo, pyDiv,
      mkBundle, maxFloat, max_def])
  exact h.1

/-! ## Claim C9: overflow in the exponential is clamped -/

/-- C9 (confirmed).  For the tunable agent: on an active campaign whose
urgency exponential overflows, the `except OverflowError` handler clamps
`deriv` to `0` and the iteration still returns a bundle (with urgency
`base_lift`), rather than propagating the overflow.  For the my-agent
variant (which has no handler) an overflow cannot occur at all: with the
fixed `steepness = 10` the evaluated argument lies in `(-5, 5]`, where the
float exponential is total and at most `e⁵ < 149`. -/
theorem c9_overflow_clamp (E : ℚ → Option ℚ) (p : ParameterVector)
    (c : CampaignInfo) :
    (0 < remainingOf c → 0 < remainingBudgetOf c → 0 ≤ c.done →
      E (-(xOf p.p_steepness (((c.done : ℤ) : ℚ) / ((c.reach : ℤ) : ℚ)))) = none →
      derivTry E (xOf p.p_steepness (((c.done : ℤ) : ℚ) / ((c.reach : ℤ) : ℚ))) =
        .ok 0 ∧
      tunStep E p c = .ok (some (mkBundle c
        (remainingBudgetOf c / ((remainingOf c : ℤ) : ℚ)) p.p_base_lift))) ∧
    ((∀ x y, E x = some y → 0 ≤ y) →
      (∀ x, -5 < x → x ≤ 5 → E x ≠ none) →
      (∀ x y, -5 < x → x ≤ 5 → E x = some y → y ≤ 149) →
      0 ≤ c.done →
      myStep E c ≠ .error .overflow) := by
  constructor
  · intro hr hb hdone hover
    obtain ⟨hlt, hrem1, hreach1⟩ := guard_bounds hdone hr
    have hraw : derivRaw E
        (xOf p.p_steepness (((c.done : ℤ) : ℚ) / ((c.reach : ℤ) : ℚ))) =
        .error .overflow := by
      unfold derivRaw pyExp
      rw [hover]
    have hderiv : derivTry E
        (xOf p.p_steepness (((c.done : ℤ) : ℚ) / ((c.reach : ℤ) : ℚ))) = .ok 0 := by
      unfold derivTry
      rw [hraw]
    refine ⟨hderiv, ?_⟩
    have hne1 : ((remainingOf c : ℤ) : ℚ) ≠ 0 := by
      exact_mod_cast (by omega : (remainingOf c : ℤ) ≠ 0)
    have hne2 : ((c.reach : ℤ) : ℚ) ≠ 0 := by
      exact_mod_cast (by omega : (c.reach : ℤ) ≠ 0)
    have h1 : pyDiv (remainingBudgetOf c) ((remainingOf c : ℤ) : ℚ) =
        .ok (remainingBudgetOf c / ((remainingOf c : ℤ) : ℚ)) := by
      unfold pyDiv
      rw [if_neg hne1]
    have h2 : pyDiv ((c.done : ℤ) : ℚ) ((c.reach : ℤ) : ℚ) =
        .ok (((c.done : ℤ) : ℚ) / ((c.reach : ℤ) : ℚ)) := by
      unfold pyDiv
      rw [if_neg hne2]
    have h3 : urgencyOf E p (((c.done : ℤ) : ℚ) / ((c.reach : ℤ) : ℚ)) =
        .ok p.p_base_lift := by
      unfold urgencyOf
      rw [hderiv]
      norm_num
    unfold tunStep
    rw [if_neg (by push_neg; exact ⟨hr, hb⟩)]
    simp only [h1, h2, h3]
  · intro hE htot hbound hdone
    unfold myStep
    by_cases hg : remainingOf c ≤ 0 ∨ remainingBudgetOf c ≤ 0
    · rw [if_pos hg]
      simp
    · rw [if_neg hg]
      push_neg at hg
      obtain ⟨hr, hb⟩ := hg
      obtain ⟨hlt, hrem1, hreach1⟩ := guard_bounds hdone hr
      have hne1 : ((remainingOf c : ℤ) : ℚ) ≠ 0 := by
        exact_mod_cast (by omega : (remainingOf c : ℤ) ≠ 0)
      have hreachpos : (0 : ℚ) < ((c.reach : ℤ) : ℚ) := by
        exact_mod_cast (by omega : (0 : ℤ) < c.reach)
      have h1 : pyDiv (remainingBudgetOf c) ((remainingOf c : ℤ) : ℚ) =
          .ok (remainingBudgetOf c / ((remainingOf c : ℤ) : ℚ)) := by
        unfold pyDiv
        rw [if_neg hne1]
      have h2 : pyDiv ((c.done : ℤ) : ℚ) ((c.reach : ℤ) : ℚ) =
          .ok (((c.done : ℤ) : ℚ) / ((c.reach : ℤ) : ℚ)) := by
        unfold pyDiv
        rw [if_neg hreachpos.ne']
      rw [h1, h2]
      have hpr0 : (0 : ℚ) ≤ ((c.done : ℤ) : ℚ) / ((c.reach : ℤ) : ℚ) := by
        apply div_nonneg _ (le_of_lt hreachpos)
        exact_mod_cast hdone
      have hpr1 : ((c.done : ℤ) : ℚ) / ((c.reach : ℤ) : ℚ) < 1 := by
        rw [div_lt_one hreachpos]
        exact_mod_cast hlt
      have hx1 : -5 <
          -(xOf 10 (((c.done : ℤ) : ℚ) / ((c.reach : ℤ) : ℚ))) := by
        unfold xOf
        nlinarith
      have hx2 : -(xOf 10 (((c.done : ℤ) : ℚ) / ((c.reach : ℤ) : ℚ))) ≤ 5 := by
        unfold xOf
        nlinarith
      cases hEx : E (-(xOf 10 (((c.done : ℤ) : ℚ) / ((c.reach : ℤ) : ℚ)))) with
      | none => exact absurd hEx (htot _ hx1 hx2)
      | some y =>
        have hy0 := hE _ _ hEx
        have hy149 := hbound _ _ hx1 hx2 hEx
        have h1y : (0 : ℚ) < 1 + y := by linarith
        have hsq : (0 : ℚ) < (1 + y) ^ 2 := pow_pos h1y 2
        have hpow : ¬ maxFloat < (1 + y) ^ 2 := by
          push_neg
          have h150 : (1 + y) ^ 2 ≤ 22500 := by nlinarith
          have h22500 : (22500 : ℚ) ≤ maxFloat := by norm_num [maxFloat]
          linarith
        have hu : myUrgency E (((c.done : ℤ) : ℚ) / ((c.reach : ℤ) : ℚ)) =
            .ok (1 / 5 + y / (1 + y) ^ 2 * 4) := by
          unfold myUrgency derivRaw pyExp pyPowTwo pyDiv
          simp only [hEx, if_neg hpow, if_neg hsq.ne']
        simp [h1, h2, hu]

/-- C9 witness: the tunable agent on the 0%-progress campaign with an
exponential that overflows at the evaluated argument `5`. -/
theorem c9_overflow_clamp_witness :
    tunStep expOverflowAtFive ⟨1, 10, 1 / 5⟩ cZero =
      .ok (some (mkBundle cZero
        (remainingBudgetOf cZero / ((remainingOf cZero : ℤ) : ℚ)) (1 / 5))) := by
  have h := (c9_overflow_clamp expOverflowAtFive ⟨1, 10, 1 / 5⟩ cZero).1
    (by norm_num [remainingOf, cZero])
    (by norm_num [remainingBudgetOf, budgetOrZero, cZero])
    (by norm_num [cZero])
    (by norm_num [xOf, cZero, expOverflowAtFive])
  exact h.2

/-! ## Claim C10: no division by zero -/

/-- C10 (confirmed).  With nonnegative campaign counters (`reach ≥ 0`,
cumulative reach `≥ 0`) the dormancy guard guarantees that whenever the
divisions `remaining_budget / remaining` and `done / reach` are evaluated,
`reach > done ≥ 0` (so `reach ≥ 1`) and `remaining ≥ 1`; consequently
neither agent's iteration can raise `ZeroDivisionError` — including for
campaigns with `reach = 0`, which the guard skips. -/
theorem c10_no_zero_division (E : ℚ → Option ℚ) (p : ParameterVector)
    (c : CampaignInfo) (hE : ∀ x y, E x = some y → 0 ≤ y)
    (_hreach : 0 ≤ c.reach) (hdone : 0 ≤ c.done) :
    ((0 < remainingOf c ∧ 0 < remainingBudgetOf c) →
      c.done < c.reach ∧ 1 ≤ remainingOf c ∧ 1 ≤ c.reach) ∧
    tunStep E p c ≠ .error .zeroDiv ∧
    myStep E c ≠ .error .zeroDiv := by
  refine ⟨fun h => guard_bounds hdone h.1, ?_, myStep_not_zeroDiv E hE c hdone⟩
  obtain ⟨r, hr⟩ := tunStep_never_err E hE p c hdone
  rw [hr]
  simp

/-- C10 witness: the reach-zero campaign — the guard skips it and nothing
is raised. -/
theorem c10_no_zero_division_witness :
    tunStep expOne ⟨4, 10, 1 / 5⟩ ⟨0, some 10, 0, 0, 0, 0⟩ ≠
      Except.error PyErr.zeroDiv :=
  (c10_no_zero_division expOne ⟨4, 10, 1 / 5⟩ ⟨0, some 10, 0, 0, 0, 0⟩
    (fun x y h => by
      simp only [expOne, Option.some.injEq] at h
      rw [← h]
      norm_num)
    (by norm_num) (by norm_num)).2.1

/-! ## Lemmas for the urgency-shape claim (C8) -/

/-- Comparison of two values of `y ↦ y / (1+y)²` reduces to the sign of
`(y - z)(1 - yz)`. -/
lemma derivShape_le {y z : ℚ} (hy : 0 < y) (hz : 0 < z)
    (h : (y - z) * (1 - y * z) ≤ 0) :
    y / (1 + y) ^ 2 ≤ z / (1 + z) ^ 2 := by
  have h1y : (0 : ℚ) < (1 + y) ^ 2 := pow_pos (by linarith) 2
  have h1z : (0 : ℚ) < (1 + z) ^ 2 := pow_pos (by linarith) 2
  rw [div_le_div_iff₀ h1y h1z]
  have hid : y * (1 + z) ^ 2 - z * (1 + y) ^ 2 = (y - z) * (1 - y * z) := by
    ring
  linarith [hid, h]

/-- The clamped derivative when the exponential value is available and its
square does not overflow. -/
lemma derivTry_val_of (E : ℚ → Option ℚ) {x y : ℚ} (hEx : E (-x) = some y)
    (hy : 0 < y) (hpow : ¬ maxFloat < (1 + y) ^ 2) :
    derivTry E x = .ok (y / (1 + y) ^ 2) := by
  have hsq : (0 : ℚ) < (1 + y) ^ 2 := pow_pos (by linarith) 2
  unfold derivTry derivRaw pyExp pyPowTwo pyDiv
  simp only [hEx, if_neg hpow, if_neg hsq.ne']

/-- The clamped derivative when the exponential overflows. -/
lemma derivTry_zero_of_none (E : ℚ → Option ℚ) {x : ℚ} (hEx : E (-x) = none) :
    derivTry E x = .ok 0 := by
  unfold derivTry derivRaw pyExp
  simp only [hEx]

/-- The clamped derivative when the square in the denominator overflows. -/
lemma derivTry_zero_of_pow (E : ℚ → Option ℚ) {x y : ℚ} (hEx : E (-x) = some y)
    (hpow : maxFloat < (1 + y) ^ 2) : derivTry E x = .ok 0 := by
  unfold derivTry derivRaw pyExp pyPowTwo
  simp only [hEx, if_pos hpow]

/-- Inversion of a successful urgency evaluation. -/
lemma urgencyOf_inv {E : ℚ → Option ℚ} {p : ParameterVector} {q u : ℚ}
    (h : urgencyOf E p q = .ok u) :
    ∃ d, derivTry E (xOf p.p_steepness q) = .ok d ∧
      u = p.p_base_lift + d * p.p_peak_multiplier := by
  unfold urgencyOf at h
  cases hd : derivTry E (xOf p.p_steepness q) with
  | error e => rw [hd] at h; simp at h
  | ok d =>
    rw [hd] at h
    simp only [Except.ok.injEq] at h
    exact ⟨d, rfl, h.symm⟩

/-- On the right half (`0 ≤ x₂ ≤ x₁`) the clamped derivative does not
increase as `x` grows, for any exponential model that behaves like
`math.exp`: value `1` at `0`, positive values, monotone, total at and
below `0`. -/
lemma derivTry_anti_right (E : ℚ → Option ℚ)
    (hE0 : E 0 = some 1)
    (hpos : ∀ x y, E x = some y → 0 < y)
    (hmono : ∀ x1 x2 y1 y2, E x1 = some y1 → E x2 = some y2 → x1 ≤ x2 → y1 ≤ y2)
    (hlow : ∀ x, x ≤ 0 → E x ≠ none)
    {x1 x2 d1 d2 : ℚ} (h2 : 0 ≤ x2) (h12 : x2 ≤ x1)
    (hd1 : derivTry E x1 = .ok d1) (hd2 : derivTry E x2 = .ok d2) :
    d1 ≤ d2 := by
  have ht1 : -x1 ≤ 0 := by linarith
  have ht2 : -x2 ≤ 0 := by linarith
  cases hE1 : E (-x1) with
  | none => exact absurd hE1 (hlow _ ht1)
  | some y1 =>
    cases hE2 : E (-x2) with
    | none => exact absurd hE2 (hlow _ ht2)
    | some y2 =>
      have hy1 := hpos _ _ hE1
      have hy2 := hpos _ _ hE2
      have hy12 : y1 ≤ y2 := hmono _ _ _ _ hE1 hE2 (by linarith)
      have hy2le : y2 ≤ 1 := hmono _ _ _ _ hE2 hE0 ht2
      have hp1 : ¬ maxFloat < (1 + y1) ^ 2 := by
        push_neg
        have : (1 + y1) ^ 2 ≤ 4 := by nlinarith
        have h4 : (4 : ℚ) ≤ maxFloat := by norm_num [maxFloat]
        linarith
      have hp2 : ¬ maxFloat < (1 + y2) ^ 2 := by
        push_neg
        have : (1 + y2) ^ 2 ≤ 4 := by nlinarith
        have h4 : (4 : ℚ) ≤ maxFloat := by norm_num [maxFloat]
        linarith
      have hv1 := derivTry_val_of E hE1 hy1 hp1
      have hv2 := derivTry_val_of E hE2 hy2 hp2
      rw [hv1] at hd1
      rw [hv2] at hd2
      simp only [Except.ok.injEq] at hd1 hd2
      rw [← hd1, ← hd2]
      refine derivShape_le hy1 hy2 ?_
      have ha : (0 : ℚ) ≤ y2 - y1 := by linarith
      have hb : (0 : ℚ) ≤ 1 - y1 * y2 := by nlinarith
      nlinarith [mul_nonneg ha hb]

/-- On the left half (`x₁ ≤ x₂ ≤ 0`) the clamped derivative does not
decrease as `x` grows, for any `math.exp`-like model; overflow (of the
exponential or of the squaring) clamps the farther point to `0` first, so
monotonicity survives the clamping. -/
lemma derivTry_anti_left (E : ℚ → Option ℚ)
    (hE0 : E 0 = some 1)
    (hpos : ∀ x y, E x = some y → 0 < y)
    (hmono : ∀ x1 x2 y1 y2, E x1 = some y1 → E x2 = some y2 → x1 ≤ x2 → y1 ≤ y2)
    (herrmono : ∀ x1 x2, x1 ≤ x2 → E x2 ≠ none → E x1 ≠ none)
    {x1 x2 d1 d2 : ℚ} (h12 : x1 ≤ x2) (h2 : x2 ≤ 0)
    (hd1 : derivTry E x1 = .ok d1) (hd2 : derivTry E x2 = .ok d2) :
    d1 ≤ d2 := by
  have ht : -x2 ≤ -x1 := by linarith
  have ht2 : 0 ≤ -x2 := by linarith
  cases hE2 : E (-x2) with
  | none =>
    have hE1 : E (-x1) = none := by
      by_contra hcon
      exact absurd hE2 (herrmono _ _ ht hcon)
    rw [derivTry_zero_of_none E hE1] at hd1
    rw [derivTry_zero_of_none E hE2] at hd2
    simp only [Except.ok.injEq] at hd1 hd2
    rw [← hd1, ← hd2]
  | some y2 =>
    have hy2 := hpos _ _ hE2
    have hy2ge : 1 ≤ y2 := hmono _ _ _ _ hE0 hE2 ht2
    cases hE1 : E (-x1) with
    | none =>
      rw [derivTry_zero_of_none E hE1] at hd1
      simp only [Except.ok.injEq] at hd1
      rw [← hd1]
      by_cases hp2 : maxFloat < (1 + y2) ^ 2
      · rw [derivTry_zero_of_pow E hE2 hp2] at hd2
        simp only [Except.ok.injEq] at hd2
        rw [← hd2]
      · rw [derivTry_val_of E hE2 hy2 hp2] at hd2
        simp only [Except.ok.injEq] at hd2
        rw [← hd2]
        positivity
    | some y1 =>
      have hy1 := hpos _ _ hE1
      have hy21 : y2 ≤ y1 := hmono _ _ _ _ hE2 hE1 ht
      by_cases hp2 : maxFloat < (1 + y2) ^ 2
      · have hp1 : maxFloat < (1 + y1) ^ 2 := by nlinarith
        rw [derivTry_zero_of_pow E hE1 hp1] at hd1
        rw [derivTry_zero_of_pow E hE2 hp2] at hd2
        simp only [Except.ok.injEq] at hd1 hd2
        rw [← hd1, ← hd2]
      · by_cases hp1 : maxFloat < (1 + y1) ^ 2
        · rw [derivTry_zero_of_pow E hE1 hp1] at hd1
          rw [derivTry_val_of E hE2 hy2 hp2] at hd2
          simp only [Except.ok.injEq] at hd1 hd2
          rw [← hd1, ← hd2]
          positivity
        · rw [derivTry_val_of E hE1 hy1 hp1] at hd1
          rw [derivTry_val_of E hE2 hy2 hp2] at hd2
          simp only [Except.ok.injEq] at hd1 hd2
          rw [← hd1, ← hd2]
          refine derivShape_le hy1 hy2 ?_
          have ha : (0 : ℚ) ≤ y1 - y2 := by linarith
          have hb : (0 : ℚ) ≤ y1 * y2 - 1 := by
            nlinarith [mul_nonneg (by linarith : (0 : ℚ) ≤ y2 - 1)
              (by linarith : (0 : ℚ) ≤ y1 - 1)]
          nlinarith [mul_nonneg ha hb]

/-! ## Claim C8: the urgency multiplier's peak and shape -/

/-- C8 counterexample.  The claim quantifies over every `peak_multiplier`,
but for a negative one the multiplier does not attain its maximum
`base_lift + 0.25·peak` at `progress = 0.5` and does not stay above
`base_lift`: with `peak = -1`, `steepness = 10`, `base_lift = 0` the
multiplier at `progress = 0.5` is `-0.25` — below `base_lift = 0` — while
at `progress = 0` it is strictly larger.  `expStub` agrees with the float
`math.exp` at the two arguments the program evaluates (`0 ↦ 1.0` exactly,
`5 ↦ 148.4131591025766`). -/
theorem c8_counterexample :
    urgencyOf expStub ⟨-1, 10, 0⟩ (1 / 2) = .ok (-(1 / 4)) ∧
    urgencyOf expStub ⟨-1, 10, 0⟩ 0 =
      .ok (-(expFloatAtFive / (1 + expFloatAtFive) ^ 2)) ∧
    -(1 / 4) < -(expFloatAtFive / (1 + expFloatAtFive) ^ 2) ∧
    -(expFloatAtFive / (1 + expFloatAtFive) ^ 2) < 0 := by
  refine ⟨?_, ?_, ?_, ?_⟩
  · norm_num [urgencyOf, derivTry, derivRaw, pyExp, pyPowTwo, pyDiv, xOf,
      expStub, expFloatAtFive, maxFloat]
  · norm_num [urgencyOf, derivTry, derivRaw, pyExp, pyPowTwo, pyDiv, xOf,
      expStub, expFloatAtFive, maxFloat]
  · norm_num [expFloatAtFive]
  · norm_num [expFloatAtFive]

/-- C8 (amended).  For a positive `peak_multiplier` and any `math.exp`-like
exponential model (value `1` at `0`, positive, monotone, total at and
below `0`, overflowing only at the top end): at `progress = 0.5` the
derivative term is exactly `0.25` and the urgency multiplier is exactly
`base_lift + 0.25·peak`; no progress value gives a larger multiplier; the
multiplier is strictly above `base_lift` wherever no float overflow
clamps the derivative; and moving progress away from `0.5` toward `0` or
`1` (steepness fixed) never increases the multiplier. -/
theorem c8_amended_urgency (E : ℚ → Option ℚ) (p : ParameterVector)
    (hE0 : E 0 = some 1)
    (hpos : ∀ x y, E x = some y → 0 < y)
    (hmono : ∀ x1 x2 y1 y2, E x1 = some y1 → E x2 = some y2 → x1 ≤ x2 → y1 ≤ y2)
    (herrmono : ∀ x1 x2, x1 ≤ x2 → E x2 ≠ none → E x1 ≠ none)
    (hlow : ∀ x, x ≤ 0 → E x ≠ none)
    (hpm : 0 < p.p_peak_multiplier) :
    urgencyOf E p (1 / 2) = .ok (p.p_base_lift + 1 / 4 * p.p_peak_multiplier) ∧
    (∀ q u, urgencyOf E p q = .ok u →
      u ≤ p.p_base_lift + 1 / 4 * p.p_peak_multiplier) ∧
    (∀ q u y, urgencyOf E p q = .ok u →
      E (-(xOf p.p_steepness q)) = some y → ¬ maxFloat < (1 + y) ^ 2 →
      p.p_base_lift < u) ∧
    (∀ q1 q2 u1 u2, q1 ≤ q2 → q2 ≤ 1 / 2 →
      urgencyOf E p q1 = .ok u1 → urgencyOf E p q2 = .ok u2 → u1 ≤ u2) ∧
    (∀ q1 q2 u1 u2, 1 / 2 ≤ q1 → q1 ≤ q2 →
      urgencyOf E p q1 = .ok u1 → urgencyOf E p q2 = .ok u2 → u2 ≤ u1) := by
  have hx0 : xOf p.p_steepness (1 / 2) = 0 := by
    unfold xOf
    ring
  have hp4 : ¬ maxFloat < ((1 : ℚ) + 1) ^ 2 := by
    push_neg
    norm_num [maxFloat]
  have hmid : derivTry E (xOf p.p_steepness (1 / 2)) = .ok (1 / 4) := by
    rw [hx0]
    have := derivTry_val_of E (x := 0) (y := 1) (by rw [neg_zero]; exact hE0)
      one_pos hp4
    rw [this]
    norm_num
  refine ⟨?_, ?_, ?_, ?_, ?_⟩
  · unfold urgencyOf
    rw [hmid]
  · intro q u h
    obtain ⟨d, hd, rfl⟩ := urgencyOf_inv h
    obtain ⟨d2, hd2, _, hle⟩ :=
      derivTry_ok E (fun x y hxy => le_of_lt (hpos x y hxy)) (xOf p.p_steepness q)
    rw [hd] at hd2
    simp only [Except.ok.injEq] at hd2
    rw [← hd2] at hle
    nlinarith
  · intro q u y h hEy hpow
    obtain ⟨d, hd, rfl⟩ := urgencyOf_inv h
    have hy := hpos _ _ hEy
    have hval := derivTry_val_of E hEy hy hpow
    rw [hval] at hd
    simp only [Except.ok.injEq] at hd
    have hdpos : (0 : ℚ) < d := by
      rw [← hd]
      positivity
    nlinarith
  · intro q1 q2 u1 u2 h12 h2 hu1 hu2
    obtain ⟨d1, hd1, rfl⟩ := urgencyOf_inv hu1
    obtain ⟨d2, hd2, rfl⟩ := urgencyOf_inv hu2
    have hdle : d1 ≤ d2 := by
      by_cases hs : 0 ≤ p.p_steepness
      · refine derivTry_anti_left E hE0 hpos hmono herrmono ?_ ?_ hd1 hd2
        · unfold xOf
          nlinarith [mul_nonneg (by linarith : (0 : ℚ) ≤ q2 - q1) hs]
        · unfold xOf
          nlinarith [mul_nonneg (by linarith : (0 : ℚ) ≤ 1 / 2 - q2) hs]
      · push_neg at hs
        refine derivTry_anti_right E hE0 hpos hmono hlow ?_ ?_ hd1 hd2
        · unfold xOf
          nlinarith [mul_nonneg (by linarith : (0 : ℚ) ≤ 1 / 2 - q2)
            (by linarith : (0 : ℚ) ≤ -p.p_steepness)]
        · unfold xOf
          nlinarith [mul_nonneg (by linarith : (0 : ℚ) ≤ q2 - q1)
            (by linarith : (0 : ℚ) ≤ -p.p_steepness)]
    nlinarith
  · intro q1 q2 u1 u2 h1 h12 hu1 hu2
    obtain ⟨d1, hd1, rfl⟩ := urgencyOf_inv hu1
    obtain ⟨d2, hd2, rfl⟩ := urgencyOf_inv hu2
    have hdle : d2 ≤ d1 := by
      by_cases hs : 0 ≤ p.p_steepness
      · refine derivTry_anti_right E hE0 hpos hmono hlow ?_ ?_ hd2 hd1
        · unfold xOf
          nlinarith [mul_nonneg (by linarith : (0 : ℚ) ≤ q1 - 1 / 2) hs]
        · unfold xOf
          nlinarith [mul_nonneg (by linarith : (0 : ℚ) ≤ q2 - q1) hs]
      · push_neg at hs
        refine derivTry_anti_left E hE0 hpos hmono herrmono ?_ ?_ hd2 hd1
        · unfold xOf
          nlinarith [mul_nonneg (by linarith : (0 : ℚ) ≤ q2 - q1)
            (by linarith : (0 : ℚ) ≤ -p.p_steepness)]
        · unfold xOf
          nlinarith [mul_nonneg (by linarith : (0 : ℚ) ≤ q1 - 1 / 2)
            (by linarith : (0 : ℚ) ≤ -p.p_steepness)]
    nlinarith

/-- C8 witness: the peak value of the amended theorem for the constant-one
exponential stand-in, knobs `(1, 10, 0)`. -/
theorem c8_amended_urgency_witness :
    urgencyOf expOne ⟨1, 10, 0⟩ (1 / 2) = .ok (0 + 1 / 4 * 1) :=
  (c8_amended_urgency expOne ⟨1, 10, 0⟩ rfl
    (fun x y h => by
      simp only [expOne, Option.some.injEq] at h
      rw [← h]
      norm_num)
    (fun x1 x2 y1 y2 h1 h2 _ => by
      simp only [expOne, Option.some.injEq] at h1 h2
      rw [← h1, ← h2])
    (fun x1 x2 _ _ => by simp [expOne])
    (fun x _ => by simp [expOne])
    (by norm_num)).1

end AdX
